import Mathlib

/-!
Verification of the prime-factor-guesser program (src/main.rs).

The development is a shallow embedding of the program's core:
prime-candidate generation by trial division (`generate_primes_up_to`,
`read_primes_from_cache`, `write_primes_to_cache`), and the
guess-search engine from `main` (`trial`, `engine_run`, `final_report`).

Machine integers (`u64`) are embedded as `Nat`; the arbitrary-precision
`BigUint` values are embedded as `Nat` directly.  Fallible operations
(file reads and writes, `expect` panics, out-of-bounds indexing) are
embedded as `Except`/`Option` results.  The `rayon` parallel loop over
trial indices is embedded as a sequential fold: every trial runs the
same index-independent body, and each trial's effect on the two
mutex-guarded cells (`found`, `best_match`) is serialized by the locks,
so any interleaving of the identical trial bodies is realized by some
sequential order of the fold.
-/

namespace PrimeFactorGuesser

/-! ## Prime generation (src/main.rs lines 28-57) -/

/-- Auxiliary scan for the integer square root: largest `j ≤ k` with
`j * j ≤ n` (and `0` if there is none).  Structural recursion, so the
kernel can evaluate it on concrete inputs. -/
def fsqrtAux (n : Nat) : Nat → Nat
  | 0 => 0
  | k + 1 => if (k + 1) * (k + 1) ≤ n then k + 1 else fsqrtAux n k

/-- Embedding of `(*num as f64).sqrt() as u64` from line 47.  For every
`num < 2^53` the `f64` conversion is exact and the correctly rounded
square root truncated to `u64` is the integer square root `Nat.sqrt num`
(proved equal below as `fsqrt_eq_sqrt`); we embed the truncated value as
the integer square root. -/
def fsqrt (n : Nat) : Nat := fsqrtAux n n

/-- Embedding of the trial-division filter on line 47:
`(2..(*num as f64).sqrt() as u64 + 1).all(|i| num % i != 0)`.
`List.range' 2 (fsqrt num + 1 - 2)` is the Rust range `2..(fsqrt num + 1)`. -/
def trial_division_ok (num : Nat) : Bool :=
  (List.range' 2 (fsqrt num + 1 - 2)).all (fun i => num % i != 0)

/-- Embedding of the computation on lines 44-48:
`(2..=n).into_par_iter().filter(...).collect()`.  The parallel filter
preserves the order of the source range, so the result is the ascending
range `2..=n` filtered by `trial_division_ok`. -/
def compute_primes (n : Nat) : List Nat :=
  (List.range' 2 (n + 1 - 2)).filter trial_division_ok

/-! ## Cache serialization model (src/main.rs lines 59-72)

The cache file holds the `serde_json` rendering of a `Vec<u64>`: the
ASCII bytes `[` `]` around the decimal digits of the entries separated
by commas.  We model file contents as the list of byte values, the
serializer `serde_json::to_string` and the parser `serde_json::from_str`
as the concrete functions below (modelling the external `serde_json`
crate on exactly the format it emits for `Vec<u64>`). -/

/-- Little-endian list of ASCII decimal digit bytes of `n`, empty for
`n = 0`; the fuel argument makes the recursion structural. -/
def natBytesAux : Nat → Nat → List Nat
  | 0, _ => []
  | fuel + 1, n => if n = 0 then [] else (48 + n % 10) :: natBytesAux fuel (n / 10)

/-- ASCII decimal rendering of `n`, most significant digit first. -/
def natBytes (n : Nat) : List Nat :=
  if n = 0 then [48] else (natBytesAux n n).reverse

/-- Joins byte chunks with the comma byte `44` between them. -/
def joinSep : List (List Nat) → List Nat
  | [] => []
  | [p] => p
  | p :: q :: ps => p ++ 44 :: joinSep (q :: ps)

/-- Model of `serde_json::to_string(primes)` for a `Vec<u64>`:
bracketed comma-separated decimal renderings, as a byte list. -/
def serialize_primes (l : List Nat) : List Nat :=
  91 :: (joinSep (l.map natBytes) ++ [93])

/-- Tests whether a byte is an ASCII decimal digit. -/
def isDigitByte (b : Nat) : Bool := decide (48 ≤ b) && decide (b ≤ 57)

/-- Numeric value of an ASCII digit byte. -/
def byteVal (b : Nat) : Nat := b - 48

/-- Value of a little-endian decimal digit list. -/
def ofDigitsLE : List Nat → Nat
  | [] => 0
  | d :: ds => d + 10 * ofDigitsLE ds

/-- Parses one nonempty all-digit chunk as a natural number. -/
def parseNatBytes (bs : List Nat) : Option Nat :=
  if bs.isEmpty then none
  else if bs.all isDigitByte then some (ofDigitsLE ((bs.map byteVal).reverse))
  else none

/-- Splits a byte list on the comma byte `44`. -/
def splitSep : List Nat → List (List Nat)
  | [] => [[]]
  | b :: bs =>
    if b = 44 then [] :: splitSep bs
    else
      match splitSep bs with
      | [] => [[b]]
      | p :: ps => (b :: p) :: ps

/-- Parses every chunk, failing if any chunk fails. -/
def parseAll : List (List Nat) → Option (List Nat)
  | [] => some []
  | p :: ps =>
    match parseNatBytes p, parseAll ps with
    | some v, some vs => some (v :: vs)
    | _, _ => none

/-- Model of `serde_json::from_str::<Vec<u64>>` on the cache bytes:
requires the bracket frame and parses the comma-separated decimal
entries. -/
def parse_primes (bs : List Nat) : Option (List Nat) :=
  match bs with
  | b :: rest =>
    if b = 91 then
      if rest.getLast? = some 93 then
        if rest.dropLast.isEmpty then some []
        else parseAll (splitSep rest.dropLast)
      else none
    else none
  | [] => none

/-! ## Cache access (src/main.rs lines 28-33, 52-54, 59-72) -/

/-- Embedding of `read_primes_from_cache` (lines 59-65).  The argument
models the readable contents of the cache file: `none` when `File::open`
or `read_to_string` fails, `some bytes` otherwise.  The error branch of
the `Except` carries the failure. -/
def read_primes_from_cache (contents : Option (List Nat)) : Except String (List Nat) :=
  match contents with
  | none => .error "cache file unreadable"
  | some bytes =>
    match parse_primes bytes with
    | some primes => .ok primes
    | none => .error "cache file malformed"

/-- Embedding of `write_primes_to_cache` (lines 67-72).  `writeOk`
models whether `File::create`/`write_all` succeed; on success the
result carries the bytes written to the file. -/
def write_primes_to_cache (writeOk : Bool) (primes : List Nat) : Except String (List Nat) :=
  if writeOk then .ok (serialize_primes primes) else .error "cache file unwritable"

/-- Environment for one call of `generate_primes_up_to` with a cache
path: the readable contents of the cache file and whether writing to it
would succeed. -/
structure CacheEnv where
  contents : Option (List Nat)
  writeOk : Bool

/-- Embedding of `generate_primes_up_to` (lines 28-57).  A cached parse
that succeeds is returned as-is (lines 29-33); otherwise the primes are
computed and, when a cache path was supplied, written with
`.expect("Failed to write primes to cache")` — the `expect` panic is
embedded as the `Except.error` carrying that message (lines 52-54). -/
def generate_primes_up_to (n : Nat) (cache : Option CacheEnv) : Except String (List Nat) :=
  match cache with
  | some (CacheEnv.mk contents writeOk) =>
    match read_primes_from_cache contents with
    | .ok cached => .ok cached
    | .error _ =>
      let primes := compute_primes n
      match write_primes_to_cache writeOk primes with
      | .ok _ => .ok primes
      | .error _ => .error "Failed to write primes to cache"
  | none => .ok (compute_primes n)

/-! ## Guess state and search engine (src/main.rs lines 74-88, 118-199) -/

/-- Embedding of the initial `prime_powers` map (line 118):
`primes.iter().map(|&prime| (prime, 0)).collect::<HashMap<u64,u64>>()`,
kept as an association list in candidate-sequence order (the engine is
only invoked with the duplicate-free generator output, for which the
`HashMap` holds exactly these entries). -/
def zeroGuess (primes : List Nat) : List (Nat × Nat) :=
  primes.map (fun p => (p, 0))

/-- Embedding of `compute_product` (lines 74-79): the product over all
entries of `prime^(power as u32)`, accumulated in arbitrary precision
starting from `BigUint::one()`.  The `as u32` cast truncates the stored
`u64` exponent to 32 bits. -/
def compute_product (g : List (Nat × Nat)) : Nat :=
  (g.map (fun e => e.1 ^ (e.2 % 2 ^ 32))).foldl (· * ·) 1

/-- Increments (with `u64` wrap-around) the first entry with key `p`. -/
def bump (p : Nat) : List (Nat × Nat) → List (Nat × Nat)
  | [] => []
  | e :: rest => if e.1 = p then (e.1, (e.2 + 1) % 2 ^ 64) :: rest else e :: bump p rest

/-- Tests whether the guess has an entry for key `p`, modelling
`local_prime_powers.get_mut(prime).is_some()`. -/
def hasKey (p : Nat) (g : List (Nat × Nat)) : Bool := g.any (fun e => e.1 = p)

/-- Embedding of the exponent-advancement loop (lines 155-160): walk
the candidate sequence in order and increment the exponent of the first
candidate present in the guess, then stop. -/
def bump_first (primes : List Nat) (g : List (Nat × Nat)) : List (Nat × Nat) :=
  match primes with
  | [] => g
  | p :: rest => if hasKey p g then bump p g else bump_first rest g

/-- Shared search state: the `found` mutex cell (line 131), the
`best_match` mutex cell holding the pair of smallest distance and its
guess (line 119), and `exactRecord`, which models the only record the
found branch makes of the exact guess — the
`info!("Found prime factors: {:?}", local_prime_powers)` log on
line 153. -/
structure EngineState where
  found : Bool
  bestDist : Nat
  bestGuess : List (Nat × Nat)
  exactRecord : Option (List (Nat × Nat))
  deriving DecidableEq

/-- Initial shared state (lines 119 and 131): `found = false` and
`best_match = (BigUint::from(u64::MAX), prime_powers.clone())`. -/
def initState (primes : List Nat) : EngineState :=
  { found := false
    bestDist := 2 ^ 64 - 1
    bestGuess := zeroGuess primes
    exactRecord := none }

/-- Embedding of one trial body (lines 137-177).  The body clones the
shared all-zero `prime_powers`, computes its product, then checks the
`found` flag (early return), then either sets `found` on an exact match
or increments the first candidate's exponent and updates `best_match`
when the distance `|product - number|` is strictly smaller.  The
progress `warn!` on lines 175-177 has no effect on the state. -/
def trial (number : Nat) (primes : List Nat) (s : EngineState) : EngineState :=
  let localPP := zeroGuess primes
  let product := compute_product localPP
  if s.found then s
  else if product = number then
    { s with found := true, exactRecord := some localPP }
  else
    let bumped := bump_first primes localPP
    let dist := if product > number then product - number else number - product
    if dist < s.bestDist then { s with bestDist := dist, bestGuess := bumped } else s

/-- Embedding of the search loop (lines 134-178): `T` trials folded
over the index range `0..T`; the trial body does not depend on the
index. -/
def engine_run (number : Nat) (primes : List Nat) (T : Nat) : EngineState :=
  (List.range T).foldl (fun s _ => trial number primes s) (initState primes)

/-- Final output of `main` (lines 182-199): the message selecting the
exact or approximation wording, and the printed factor mapping. -/
structure Report where
  message : String
  factors : List (Nat × Nat)
  deriving DecidableEq

/-- Embedding of the final read of the shared state (lines 182-199):
both branches print `best_match.1`; only the message differs. -/
def final_report (s : EngineState) : Report :=
  if s.found then { message := "Prime factors found", factors := s.bestGuess }
  else { message := "Failed to find prime factors. Best match", factors := s.bestGuess }

/-! ## Startup (src/main.rs lines 103-109) -/

/-- Embedding of `BigUint::from_bytes_be(&buffer)` (line 103): the
big-endian base-256 value of the file's bytes (each byte is below
`256`; the reduction `% 256` makes the embedding total). -/
def from_bytes_be (bytes : List Nat) : Nat :=
  bytes.foldl (fun acc b => acc * 256 + b % 256) 0

/-- Embedding of `BigUint::to_u64_digits` (line 108): the little-endian
base-`2^64` digit list, which is empty for the value zero. -/
def to_u64_digits : Nat → List Nat
  | 0 => []
  | n + 1 => (n + 1) % 2 ^ 64 :: to_u64_digits ((n + 1) / 2 ^ 64)
decreasing_by exact Nat.div_lt_self (Nat.succ_pos _) (by norm_num)

/-- Embedding of lines 107-108, executed before `generate_primes_up_to`
on line 109: `number.sqrt().to_u64_digits()[0]`.  The `[0]` indexing is
embedded as `List.get?`; `none` models the index-out-of-bounds panic. -/
def main_compute_bound (bytes : List Nat) : Option Nat :=
  (to_u64_digits (Nat.sqrt (from_bytes_be bytes))).get? 0

/-! ## Integer square root bridge -/

/-- On `0..k`, `fsqrtAux n` finds `Nat.sqrt n` as soon as the scan
starts at or above it. -/
lemma fsqrtAux_eq (n : Nat) : ∀ k, Nat.sqrt n ≤ k → fsqrtAux n k = Nat.sqrt n := by
  intro k
  induction k with
  | zero =>
    intro h
    simp only [fsqrtAux]
    omega
  | succ k ih =>
    intro h
    simp only [fsqrtAux]
    by_cases hc : (k + 1) * (k + 1) ≤ n
    · rw [if_pos hc]
      have : k + 1 ≤ Nat.sqrt n := Nat.le_sqrt.mpr hc
      omega
    · rw [if_neg hc]
      apply ih
      have : ¬(k + 1 ≤ Nat.sqrt n) := fun hle => hc (Nat.le_sqrt.mp hle)
      omega

/-- The embedded truncated square root agrees with `Nat.sqrt`. -/
lemma fsqrt_eq_sqrt (n : Nat) : fsqrt n = Nat.sqrt n :=
  fsqrtAux_eq n n (Nat.sqrt_le_self n)

/-! ## Correctness of the trial-division filter -/

/-- The divisor scan up to the square root accepts exactly the primes,
for candidates at least `2`. -/
lemma trial_division_ok_iff_prime (num : Nat) (h : 2 ≤ num) :
    trial_division_ok num = true ↔ Nat.Prime num := by
  unfold trial_division_ok
  rw [fsqrt_eq_sqrt, List.all_eq_true]
  have hs : 1 ≤ Nat.sqrt num := Nat.sqrt_pos.mpr (by omega)
  constructor
  · intro H
    rw [Nat.prime_def_le_sqrt]
    refine ⟨h, fun m hm2 hms hdvd => ?_⟩
    have hmem : m ∈ List.range' 2 (Nat.sqrt num + 1 - 2) := by
      rw [List.mem_range'_1]
      omega
    have hne := bne_iff_ne.mp (H m hmem)
    exact hne (Nat.dvd_iff_mod_eq_zero.mp hdvd)
  · intro hp i hi
    rw [List.mem_range'_1] at hi
    rw [bne_iff_ne]
    intro hmod
    have hdvd : i ∣ num := Nat.dvd_iff_mod_eq_zero.mpr hmod
    rw [Nat.prime_def_le_sqrt] at hp
    exact hp.2 i (by omega) (by omega) hdvd

/-- Membership characterization of the generator output. -/
lemma mem_compute_primes (n p : Nat) (h : 2 ≤ n) :
    p ∈ compute_primes n ↔ Nat.Prime p ∧ p ≤ n := by
  unfold compute_primes
  rw [List.mem_filter, List.mem_range'_1]
  constructor
  · rintro ⟨⟨h2, hlt⟩, hok⟩
    exact ⟨(trial_division_ok_iff_prime p h2).mp hok, by omega⟩
  · rintro ⟨hp, hle⟩
    have h2 := hp.two_le
    exact ⟨⟨h2, by omega⟩, (trial_division_ok_iff_prime p h2).mpr hp⟩

/-- The generator output is strictly ascending. -/
lemma compute_primes_sorted (n : Nat) : List.Pairwise (· < ·) (compute_primes n) :=
  List.Pairwise.filter _ (List.pairwise_lt_range' 2 (n + 1 - 2))

/-- The generator output starts with `2` whenever the bound admits it. -/
lemma compute_primes_head (n : Nat) (h : 2 ≤ n) : (compute_primes n).head? = some 2 := by
  unfold compute_primes
  obtain ⟨k, rfl⟩ : ∃ k, n = k + 2 := ⟨n - 2, by omega⟩
  have hk : k + 2 + 1 - 2 = k + 1 := by omega
  rw [hk, List.range'_succ, List.filter_cons, if_pos (by decide : trial_division_ok 2 = true)]
  rfl

/-- C3, counterexample: at the non-negative bound `1` the generator
returns the empty sequence, whose first element is not `2`, refuting
the unconditional first-element clause over all non-negative bounds. -/
theorem generate_primes_bound_one_no_first :
    generate_primes_up_to 1 none = Except.ok [] ∧ ([] : List Nat).head? ≠ some 2 :=
  ⟨rfl, by simp⟩

/-- C3 (amended to bounds `n ≥ 2`): `generate_primes_up_to` with no
cache returns the trial-division sequence, which is strictly ascending,
duplicate-free, starts with `2`, and is exactly the set of primes up to
the bound. -/
theorem generate_primes_spec_of_two_le (n : Nat) (h : 2 ≤ n) :
    generate_primes_up_to n none = Except.ok (compute_primes n) ∧
    List.Sorted (· < ·) (compute_primes n) ∧
    (compute_primes n).Nodup ∧
    (compute_primes n).head? = some 2 ∧
    ∀ p : Nat, p ∈ compute_primes n ↔ Nat.Prime p ∧ p ≤ n :=
  ⟨rfl, compute_primes_sorted n,
    (compute_primes_sorted n).imp (fun hlt => Nat.ne_of_lt hlt),
    compute_primes_head n h, fun p => mem_compute_primes n p h⟩

/-- C3, witness: the amended specification instantiated at bound 10. -/
theorem generate_primes_spec_of_two_le_witness :
    2 ≤ 10 ∧ (generate_primes_up_to 10 none = Except.ok (compute_primes 10) ∧
      List.Sorted (· < ·) (compute_primes 10) ∧
      (compute_primes 10).Nodup ∧
      (compute_primes 10).head? = some 2 ∧
      ∀ p : Nat, p ∈ compute_primes 10 ↔ Nat.Prime p ∧ p ≤ 10) :=
  ⟨by decide, generate_primes_spec_of_two_le 10 (by decide)⟩

/-! ## Serialization round trip -/

/-- Every byte produced by the digit scan is an ASCII digit byte. -/
lemma natBytesAux_mem_bounds : ∀ fuel n b, b ∈ natBytesAux fuel n → 48 ≤ b ∧ b ≤ 57 := by
  intro fuel
  induction fuel with
  | zero => intro n b hb; simp [natBytesAux] at hb
  | succ fuel ih =>
    intro n b hb
    by_cases hn : n = 0
    · simp [natBytesAux, hn] at hb
    · simp only [natBytesAux, if_neg hn, List.mem_cons] at hb
      rcases hb with rfl | hb
      · have : n % 10 < 10 := Nat.mod_lt _ (by norm_num)
        omega
      · exact ih _ _ hb

/-- Every byte of a rendered number is an ASCII digit byte. -/
lemma natBytes_mem_bounds (n b : Nat) (hb : b ∈ natBytes n) : 48 ≤ b ∧ b ≤ 57 := by
  unfold natBytes at hb
  by_cases hn : n = 0
  · rw [if_pos hn, List.mem_singleton] at hb
    omega
  · rw [if_neg hn, List.mem_reverse] at hb
    exact natBytesAux_mem_bounds n n b hb

/-- A rendered number is never the empty byte list. -/
lemma natBytes_ne_nil (n : Nat) : natBytes n ≠ [] := by
  unfold natBytes
  by_cases hn : n = 0
  · simp [hn]
  · rw [if_neg hn]
    obtain ⟨m, rfl⟩ : ∃ m, n = m + 1 := ⟨n - 1, by omega⟩
    simp [natBytesAux]

/-- The comma separator never occurs inside a rendered number. -/
lemma comma_not_mem_natBytes (n : Nat) : ¬44 ∈ natBytes n := fun h => by
  have := natBytes_mem_bounds n 44 h
  omega

/-- The little-endian digit value of the scan output recovers the
number, given enough fuel. -/
lemma ofDigitsLE_natBytesAux : ∀ fuel n, n ≤ fuel →
    ofDigitsLE ((natBytesAux fuel n).map byteVal) = n := by
  intro fuel
  induction fuel with
  | zero =>
    intro n h
    have : n = 0 := by omega
    simp [this, natBytesAux, ofDigitsLE]
  | succ fuel ih =>
    intro n h
    by_cases hn : n = 0
    · simp [natBytesAux, hn, ofDigitsLE]
    · simp only [natBytesAux, if_neg hn, List.map_cons, ofDigitsLE, byteVal]
      rw [ih (n / 10) (by omega)]
      omega

/-- Parsing inverts rendering on one number. -/
lemma parseNatBytes_natBytes (n : Nat) : parseNatBytes (natBytes n) = some n := by
  have hne : (natBytes n).isEmpty = false := by
    cases h : natBytes n with
    | nil => exact absurd h (natBytes_ne_nil n)
    | cons b bs => rfl
  have hall : (natBytes n).all isDigitByte = true := by
    rw [List.all_eq_true]
    intro b hb
    have := natBytes_mem_bounds n b hb
    unfold isDigitByte
    simp only [Bool.and_eq_true, decide_eq_true_eq]
    omega
  unfold parseNatBytes
  rw [hne, hall]
  simp only [Bool.false_eq_true, if_false, if_true]
  congr 1
  by_cases hn : n = 0
  · subst hn
    rfl
  · unfold natBytes
    rw [if_neg hn, List.map_reverse, List.reverse_reverse]
    exact ofDigitsLE_natBytesAux n n le_rfl

/-- Splitting never produces the empty chunk list. -/
lemma splitSep_ne_nil (bs : List Nat) : splitSep bs ≠ [] := by
  cases bs with
  | nil => simp [splitSep]
  | cons b bs' =>
    unfold splitSep
    by_cases hb : b = 44
    · simp [hb]
    · rw [if_neg hb]
      cases h : splitSep bs' <;> simp

/-- A separator-free byte list splits into the single chunk itself. -/
lemma splitSep_no_sep (p : List Nat) (hp : ¬44 ∈ p) : splitSep p = [p] := by
  induction p with
  | nil => rfl
  | cons b bs ih =>
    have hb : b ≠ 44 := fun h => hp (by simp [h])
    have hbs : ¬44 ∈ bs := fun h => hp (by simp [h])
    unfold splitSep
    rw [if_neg hb, ih hbs]

/-- Splitting peels off a leading separator-free chunk. -/
lemma splitSep_append (p rest : List Nat) (hp : ¬44 ∈ p) :
    splitSep (p ++ 44 :: rest) = p :: splitSep rest := by
  induction p with
  | nil => simp [splitSep]
  | cons b bs ih =>
    have hb : b ≠ 44 := fun h => hp (by simp [h])
    have hbs : ¬44 ∈ bs := fun h => hp (by simp [h])
    rw [List.cons_append]
    conv_lhs => rw [splitSep]
    rw [if_neg hb, ih hbs]

/-- A joined chunk list with a nonempty head is nonempty. -/
lemma joinSep_ne_nil (p : List Nat) (ps : List (List Nat)) (hp : p ≠ []) :
    joinSep (p :: ps) ≠ [] := by
  cases ps with
  | nil => simpa [joinSep] using hp
  | cons q ps' => simp [joinSep]

/-- Splitting inverts joining for nonempty, separator-free chunk lists. -/
lemma splitSep_joinSep (parts : List (List Nat)) (hne : parts ≠ [])
    (hsep : ∀ p ∈ parts, ¬44 ∈ p) : splitSep (joinSep parts) = parts := by
  induction parts with
  | nil => exact absurd rfl hne
  | cons p ps ih =>
    cases ps with
    | nil => exact splitSep_no_sep p (hsep p (by simp))
    | cons q ps' =>
      show splitSep (p ++ 44 :: joinSep (q :: ps')) = _
      rw [splitSep_append p _ (hsep p (by simp))]
      rw [ih (by simp) (fun r hr => hsep r (List.mem_cons_of_mem p hr))]

/-- Chunkwise parsing inverts chunkwise rendering. -/
lemma parseAll_map_natBytes (l : List Nat) : parseAll (l.map natBytes) = some l := by
  induction l with
  | nil => rfl
  | cons x xs ih => simp only [List.map_cons, parseAll, parseNatBytes_natBytes, ih]

/-- Unfolding equation of the parser on a nonempty byte list. -/
lemma parse_primes_cons (b : Nat) (rest : List Nat) :
    parse_primes (b :: rest) =
      if b = 91 then
        if rest.getLast? = some 93 then
          if rest.dropLast.isEmpty then some []
          else parseAll (splitSep rest.dropLast)
        else none
      else none := rfl

/-- The parser inverts the serializer on every value list: the model of
the cache artifact round trip. -/
lemma parse_serialize (l : List Nat) : parse_primes (serialize_primes l) = some l := by
  rw [serialize_primes]
  rw [parse_primes_cons 91 (joinSep (List.map natBytes l) ++ [93])]
  rw [if_pos rfl, List.getLast?_concat, if_pos rfl, List.dropLast_concat]
  cases l with
  | nil => rfl
  | cons x xs =>
    have hne : joinSep ((x :: xs).map natBytes) ≠ [] := by
      simp only [List.map_cons]
      exact joinSep_ne_nil _ _ (natBytes_ne_nil x)
    have hnef : (joinSep ((x :: xs).map natBytes)).isEmpty = false := by
      cases h : joinSep ((x :: xs).map natBytes) with
      | nil => exact absurd h hne
      | cons b bs => rfl
    rw [hnef]
    simp only [Bool.false_eq_true, if_false]
    rw [splitSep_joinSep _ (by simp) ?hsep]
    case hsep =>
      intro p hp
      rw [List.mem_map] at hp
      obtain ⟨y, _, rfl⟩ := hp
      exact comma_not_mem_natBytes y
    exact parseAll_map_natBytes (x :: xs)

/-! ## Claims on the cache (C6, C7, C8) -/

/-- C8: writing any prime sequence to the cache and reloading it yields
the identical sequence. -/
theorem cache_round_trip (primes : List Nat) :
    write_primes_to_cache true primes = Except.ok (serialize_primes primes) ∧
    read_primes_from_cache (some (serialize_primes primes)) = Except.ok primes := by
  refine ⟨rfl, ?_⟩
  rw [read_primes_from_cache, parse_serialize]

/-- C6: a cache file holding the bound-100 sequence satisfies a
bound-10 request unchanged — the mismatch is undetected and the wrong
(larger) sequence is returned without recomputation. -/
theorem stale_cache_returned_unchanged :
    generate_primes_up_to 10
        (some ⟨some (serialize_primes (compute_primes 100)), true⟩) =
      Except.ok (compute_primes 100) ∧
    compute_primes 100 ≠ compute_primes 10 := by
  constructor
  · rw [generate_primes_up_to, read_primes_from_cache, parse_serialize]
  · decide

/-- C7: a failed cache read degrades to recomputation (when the write
then succeeds, the computed primes are returned), while a failed cache
write is the fatal `expect` panic surfaced to the caller. -/
theorem cache_error_handling (n : Nat) (contents : Option (List Nat)) (e : String)
    (hread : read_primes_from_cache contents = Except.error e) :
    generate_primes_up_to n (some ⟨contents, true⟩) = Except.ok (compute_primes n) ∧
    generate_primes_up_to n (some ⟨contents, false⟩) =
      Except.error "Failed to write primes to cache" := by
  constructor <;> (rw [generate_primes_up_to, hread]; rfl)

/-- C7, witness: an unreadable cache file at bound 5. -/
theorem cache_error_handling_witness :
    read_primes_from_cache none = Except.error "cache file unreadable" ∧
    generate_primes_up_to 5 (some ⟨none, true⟩) = Except.ok (compute_primes 5) ∧
    generate_primes_up_to 5 (some ⟨none, false⟩) =
      Except.error "Failed to write primes to cache" :=
  ⟨rfl, cache_error_handling 5 none "cache file unreadable" rfl⟩

/-! ## Engine lemmas -/

/-- A left fold of multiplication over a list of ones returns the
accumulator. -/
lemma foldl_mul_ones (l : List Nat) (a : Nat) (h : ∀ x ∈ l, x = 1) :
    l.foldl (· * ·) a = a := by
  induction l generalizing a with
  | nil => rfl
  | cons x xs ih =>
    simp only [List.foldl_cons]
    rw [h x (by simp), mul_one]
    exact ih a (fun y hy => h y (List.mem_cons_of_mem x hy))

/-- The product of the all-zero guess is `1`, for every candidate
sequence. -/
lemma product_zeroGuess (primes : List Nat) : compute_product (zeroGuess primes) = 1 := by
  unfold compute_product zeroGuess
  rw [List.map_map]
  apply foldl_mul_ones
  intro x hx
  rw [List.mem_map] at hx
  obtain ⟨p, _, rfl⟩ := hx
  norm_num

/-- Characterization of one trial: the product it evaluates is the
all-zero product `1`; the incremented guess only ever enters the state
as the recorded `BestMatch` guess. -/
lemma trial_eq (number : Nat) (primes : List Nat) (s : EngineState) :
    trial number primes s =
      if s.found then s
      else if 1 = number then
        { s with found := true, exactRecord := some (zeroGuess primes) }
      else if (if 1 > number then 1 - number else number - 1) < s.bestDist then
        { s with bestDist := if 1 > number then 1 - number else number - 1,
                 bestGuess := bump_first primes (zeroGuess primes) }
      else s := by
  simp only [trial, product_zeroGuess]

/-- One trial never increases the stored best distance. -/
lemma trial_bestDist_le (number : Nat) (primes : List Nat) (s : EngineState) :
    (trial number primes s).bestDist ≤ s.bestDist := by
  rw [trial_eq]
  by_cases h1 : s.found = true
  · rw [if_pos h1]
  · rw [if_neg h1]
    by_cases h2 : 1 = number
    · rw [if_pos h2]
    · rw [if_neg h2]
      by_cases h3 : (if 1 > number then 1 - number else number - 1) < s.bestDist
      · rw [if_pos h3]
        exact Nat.le_of_lt h3
      · rw [if_neg h3]

/-- The stored guess changes only together with a strict distance
decrease. -/
lemma trial_bestGuess_strict (number : Nat) (primes : List Nat) (s : EngineState)
    (h : (trial number primes s).bestGuess ≠ s.bestGuess) :
    (trial number primes s).bestDist < s.bestDist := by
  rw [trial_eq] at h ⊢
  by_cases h1 : s.found = true
  · rw [if_pos h1] at h
    exact absurd rfl h
  · rw [if_neg h1] at h ⊢
    by_cases h2 : 1 = number
    · rw [if_pos h2] at h
      exact absurd rfl h
    · rw [if_neg h2] at h ⊢
      by_cases h3 : (if 1 > number then 1 - number else number - 1) < s.bestDist
      · rw [if_pos h3]
        exact h3
      · rw [if_neg h3] at h
        exact absurd rfl h

/-- A trial that observes the flag set performs no further work. -/
lemma trial_of_found (number : Nat) (primes : List Nat) (s : EngineState)
    (h : s.found = true) : trial number primes s = s := by
  rw [trial_eq, if_pos h]

/-- The found flag never reverts within one trial. -/
lemma trial_found_mono (number : Nat) (primes : List Nat) (s : EngineState)
    (h : s.found = true) : (trial number primes s).found = true := by
  rw [trial_of_found number primes s h]
  exact h

/-- When the target differs from the all-zero product `1`, no trial can
set the found flag. -/
lemma trial_found_of_ne_one (number : Nat) (primes : List Nat) (s : EngineState)
    (h : number ≠ 1) : (trial number primes s).found = s.found := by
  rw [trial_eq]
  by_cases h1 : s.found = true
  · rw [if_pos h1]
  · rw [if_neg h1, if_neg (fun h2 => h h2.symm)]
    by_cases h3 : (if 1 > number then 1 - number else number - 1) < s.bestDist
    · rw [if_pos h3]
    · rw [if_neg h3]

/-- The engine run unfolds one trial at a time. -/
lemma engine_run_succ (number : Nat) (primes : List Nat) (T : Nat) :
    engine_run number primes (T + 1) = trial number primes (engine_run number primes T) := by
  unfold engine_run
  rw [List.range_succ, List.foldl_append]
  rfl

/-- When the target is not `1`, the flag stays down for the whole run. -/
lemma engine_run_found_false (number : Nat) (primes : List Nat) (T : Nat) (h : number ≠ 1) :
    (engine_run number primes T).found = false := by
  induction T with
  | zero => rfl
  | succ T ih => rw [engine_run_succ, trial_found_of_ne_one number primes _ h, ih]

/-- Closed form of a run at target `1`: the first trial records the
all-zero exact guess and every later trial is a no-op. -/
lemma engine_run_one (primes : List Nat) (T : Nat) :
    engine_run 1 primes T =
      if T = 0 then initState primes
      else { initState primes with found := true, exactRecord := some (zeroGuess primes) } := by
  induction T with
  | zero => rfl
  | succ T ih =>
    rw [engine_run_succ, ih]
    by_cases hT : T = 0
    · rw [if_pos hT, if_neg (Nat.succ_ne_zero T), trial_eq]
      rfl
    · rw [if_neg hT, if_neg (Nat.succ_ne_zero T)]
      exact trial_of_found 1 primes _ rfl

/-- A target beyond the initial distance `u64::MAX` leaves the state of
a single trial untouched. -/
lemma trial_of_large (number : Nat) (primes : List Nat) (h : 2 ^ 64 - 1 < number) :
    trial number primes (initState primes) = initState primes := by
  rw [trial_eq]
  rw [if_neg (by simp [initState] : ¬((initState primes).found = true))]
  rw [if_neg (by omega : ¬(1 = number))]
  rw [if_neg ?hd]
  case hd =>
    rw [if_neg (by omega : ¬(1 > number))]
    show ¬(number - 1 < (initState primes).bestDist)
    simp only [initState]
    omega

/-- A target beyond `u64::MAX` leaves the whole run at the initial
state. -/
lemma engine_run_large (number : Nat) (primes : List Nat) (T : Nat)
    (h : 2 ^ 64 - 1 < number) : engine_run number primes T = initState primes := by
  induction T with
  | zero => rfl
  | succ T ih => rw [engine_run_succ, ih, trial_of_large number primes h]

/-- Across a run, later best distances never exceed earlier ones. -/
lemma engine_run_bestDist_le (number : Nat) (primes : List Nat) (T1 T2 : Nat) (h : T1 ≤ T2) :
    (engine_run number primes T2).bestDist ≤ (engine_run number primes T1).bestDist := by
  induction T2, h using Nat.le_induction with
  | base => exact le_refl _
  | succ T2 hT ih =>
    rw [engine_run_succ]
    exact le_trans (trial_bestDist_le number primes _) ih

/-- Across a run, the found flag is monotone. -/
lemma engine_run_found_le (number : Nat) (primes : List Nat) (T1 T2 : Nat) (h : T1 ≤ T2)
    (hf : (engine_run number primes T1).found = true) :
    (engine_run number primes T2).found = true := by
  induction T2, h using Nat.le_induction with
  | base => exact hf
  | succ T2 hT ih =>
    rw [engine_run_succ]
    exact trial_found_mono number primes _ ih

/-! ## Claims on the engine (C1, C2, C4, C5, C9) -/

/-- C1, counterexample: with candidate sequence `[2]` and target `12`,
the distance a trial stores corresponds to the all-zero product `1`
(distance `11`), not to the product `2` of the once-incremented guess
the claim says the trial evaluates (which would give distance `10`). -/
theorem trial_product_precedes_bump_cex :
    (trial 12 [2] (initState [2])).bestDist = 12 - compute_product (zeroGuess [2]) ∧
    compute_product (bump_first [2] (zeroGuess [2])) = 2 ∧
    (trial 12 [2] (initState [2])).bestDist ≠
      12 - compute_product (bump_first [2] (zeroGuess [2])) := by
  decide

/-- C1 (amended): every trial copies the original all-zero GuessState
and the product it evaluates is that copy's product, `1`; the increment
of the first candidate's exponent happens only after the product is
computed and only determines the guess recorded into BestMatch on an
improvement. -/
theorem trial_evaluates_all_zero_guess (number : Nat) (primes : List Nat) (s : EngineState) :
    compute_product (zeroGuess primes) = 1 ∧
    trial number primes s =
      if s.found then s
      else if 1 = number then
        { s with found := true, exactRecord := some (zeroGuess primes) }
      else if (if 1 > number then 1 - number else number - 1) < s.bestDist then
        { s with bestDist := if 1 > number then 1 - number else number - 1,
                 bestGuess := bump_first primes (zeroGuess primes) }
      else s :=
  ⟨product_zeroGuess primes, trial_eq number primes s⟩

/-- C2: when the flag is set after the run, the reported guess is the
exact recorded one and its product is the target, under the exact-match
message; otherwise the report carries BestMatch's guess under the
best-approximation message. -/
theorem search_result_selection (number : Nat) (primes : List Nat) (T : Nat) :
    ((engine_run number primes T).found = true →
      (engine_run number primes T).exactRecord =
        some ((engine_run number primes T).bestGuess) ∧
      compute_product ((engine_run number primes T).bestGuess) = number ∧
      final_report (engine_run number primes T) =
        { message := "Prime factors found",
          factors := (engine_run number primes T).bestGuess }) ∧
    ((engine_run number primes T).found = false →
      final_report (engine_run number primes T) =
        { message := "Failed to find prime factors. Best match",
          factors := (engine_run number primes T).bestGuess }) := by
  constructor
  · intro hf
    have hone : number = 1 := by
      by_contra hne
      rw [engine_run_found_false number primes T hne] at hf
      exact Bool.false_ne_true hf
    subst hone
    rw [engine_run_one primes T] at hf ⊢
    by_cases hT : T = 0
    · rw [if_pos hT] at hf
      exact absurd hf (by simp [initState])
    · rw [if_neg hT]
      refine ⟨rfl, ?_, rfl⟩
      show compute_product (zeroGuess primes) = 1
      exact product_zeroGuess primes
  · intro hf
    unfold final_report
    rw [hf]
    rfl

/-- C2, witness: target `1` sets the flag in one trial and reports the
exact record; target `12` leaves it down and reports the best match. -/
theorem search_result_selection_witness :
    ((engine_run 1 [2] 1).exactRecord = some ((engine_run 1 [2] 1).bestGuess) ∧
      compute_product ((engine_run 1 [2] 1).bestGuess) = 1 ∧
      final_report (engine_run 1 [2] 1) =
        { message := "Prime factors found", factors := (engine_run 1 [2] 1).bestGuess }) ∧
    (final_report (engine_run 12 [2] 1) =
      { message := "Failed to find prime factors. Best match",
        factors := (engine_run 12 [2] 1).bestGuess }) :=
  ⟨(search_result_selection 1 [2] 1).1 (by decide),
   (search_result_selection 12 [2] 1).2 (by decide)⟩

/-- C4: BestMatch is replaced only on a strictly smaller distance, the
stored distance is non-increasing across the run, and the found flag
only ever goes from false to true. -/
theorem best_match_monotonicity (number : Nat) (primes : List Nat) (s : EngineState)
    (T1 T2 : Nat) :
    ((trial number primes s).bestDist ≤ s.bestDist) ∧
    ((trial number primes s).bestGuess ≠ s.bestGuess →
      (trial number primes s).bestDist < s.bestDist) ∧
    (s.found = true → (trial number primes s).found = true) ∧
    (T1 ≤ T2 →
      (engine_run number primes T2).bestDist ≤ (engine_run number primes T1).bestDist) ∧
    (T1 ≤ T2 → (engine_run number primes T1).found = true →
      (engine_run number primes T2).found = true) :=
  ⟨trial_bestDist_le number primes s,
   trial_bestGuess_strict number primes s,
   trial_found_mono number primes s,
   engine_run_bestDist_le number primes T1 T2,
   engine_run_found_le number primes T1 T2⟩

/-- C4, witness: concrete instances of each guarded conjunct. -/
theorem best_match_monotonicity_witness :
    ((trial 12 [2] (initState [2])).bestDist < (initState [2]).bestDist) ∧
    ((trial 12 [2]
        { found := true, bestDist := 5, bestGuess := [], exactRecord := none }).found
      = true) ∧
    ((engine_run 12 [2] 2).bestDist ≤ (engine_run 12 [2] 1).bestDist) ∧
    ((engine_run 1 [2] 2).found = true) :=
  ⟨(best_match_monotonicity 12 [2] (initState [2]) 1 2).2.1 (by decide),
   (best_match_monotonicity 12 [2]
      { found := true, bestDist := 5, bestGuess := [], exactRecord := none } 1 2).2.2.1 rfl,
   (best_match_monotonicity 12 [2] (initState [2]) 1 2).2.2.2.1 (by decide),
   (best_match_monotonicity 1 [2] (initState [2]) 1 2).2.2.2.2 (by decide) (by decide)⟩

/-- C5, divergence witness for the code defect: at target
`625000 = 2^3 * 5^7`, whose exact factorization exists over the
candidates, the engine still never sets the found flag — every trial
evaluates product `1` — and the run of any length reports only a best
approximation, contradicting the required exact match `{2:3, 5:7}`. -/
theorem exact_match_never_found_for_625000 (T : Nat) :
    compute_product [(2, 3), (5, 7)] = 625000 ∧
    (engine_run 625000 (compute_primes (Nat.sqrt 625000)) T).found = false ∧
    (final_report (engine_run 625000 (compute_primes (Nat.sqrt 625000)) T)).message =
      "Failed to find prime factors. Best match" := by
  refine ⟨by decide, engine_run_found_false _ _ T (by omega), ?_⟩
  unfold final_report
  rw [engine_run_found_false _ _ T (by omega)]
  rfl

/-- C9: for a target strictly above `u64::MAX`, no trial ever updates
BestMatch — the run ends in the initial state, the stored distance is
still `u64::MAX`, and the report carries the all-zero mapping. -/
theorem huge_target_state_unchanged (number : Nat) (primes : List Nat) (T : Nat)
    (h : 2 ^ 64 - 1 < number) :
    engine_run number primes T = initState primes ∧
    (engine_run number primes T).bestDist = 2 ^ 64 - 1 ∧
    (final_report (engine_run number primes T)).factors = zeroGuess primes := by
  have he := engine_run_large number primes T h
  refine ⟨he, ?_, ?_⟩
  · rw [he]
    rfl
  · rw [he]
    rfl

/-- C9, witness: target `2^64` with candidates `[2, 3]` and two
trials. -/
theorem huge_target_state_unchanged_witness :
    2 ^ 64 - 1 < 2 ^ 64 ∧
    (engine_run (2 ^ 64) [2, 3] 2 = initState [2, 3] ∧
      (engine_run (2 ^ 64) [2, 3] 2).bestDist = 2 ^ 64 - 1 ∧
      (final_report (engine_run (2 ^ 64) [2, 3] 2)).factors = zeroGuess [2, 3]) :=
  ⟨by norm_num, huge_target_state_unchanged (2 ^ 64) [2, 3] 2 (by norm_num)⟩

/-! ## Claim on startup (C10) -/

/-- C10: whenever the input file's bytes denote the integer `0`, the
square root is `0`, its `u64` digit vector is empty, and the indexing
`[0]` on line 108 is out of bounds — the embedded bound computation
yields `none`, the model of the panic raised before
`generate_primes_up_to` is ever called. -/
theorem zero_input_bound_panic (bytes : List Nat) (h : from_bytes_be bytes = 0) :
    main_compute_bound bytes = none := by
  unfold main_compute_bound
  rw [h, Nat.sqrt_zero]
  rw [show to_u64_digits 0 = [] from by rw [to_u64_digits]]
  rfl

/-- C10, witness: the empty file denotes `0` and hits the panic. -/
theorem zero_input_bound_panic_witness :
    from_bytes_be [] = 0 ∧ main_compute_bound [] = none :=
  ⟨rfl, zero_input_bound_panic [] rfl⟩

end PrimeFactorGuesser
